import Mathlib

/-!
Verification development for the photo_levelup_agent backend.

The Go sources modelled here:
* backend/internal/session/firestore.go : the Firestore-backed session store
  (documents keyed by "app_user_sessionId", a per-document key/value state map
  and an append-only event log).
* backend/internal/handlers/chat.go     : resolveSessionID and the chat
  message enrichment of chatWithAgent.
* backend/internal/handlers/image.go    : the in-memory JobStore.
* backend/internal/handlers/analyze.go  : the asynchronous analysis pipeline
  processAnalysis and the status polling handler.

Go maps are modelled extensionally as association lists with replace-or-append
assignment, machine timestamps as `Nat`, and dynamically typed state values
(`map[string]any`) as the inductive `Value`.  Fallible backend calls are
modelled with `Option`/`Except`.
-/

namespace PhotoLevelup

/-- Dynamically typed value stored in session state (Go `any`); the code only
ever stores strings and integers there. -/
inductive Value where
  | str : String → Value
  | int : Int → Value
deriving DecidableEq

/-- Rendering of a state value with Go `fmt.Sprintf("%v", v)`. -/
def Value.render : Value → String
  | Value.str s => s
  | Value.int n => toString n

/-- Lookup in an association-list model of a Go map. -/
def alistGet {α : Type} : List (String × α) → String → Option α
  | [], _ => none
  | (k', v) :: rest, k => if k' = k then some v else alistGet rest k

/-- Go map assignment `m[k] = v`: replace the binding if present, else add it. -/
def alistSet {α : Type} : List (String × α) → String → α → List (String × α)
  | [], k, v => [(k, v)]
  | (k', v') :: rest, k, v =>
    if k' = k then (k, v) :: rest else (k', v') :: alistSet rest k v

/-- Model of Go `strings.TrimSpace`: drop whitespace from both ends. -/
def trimSpace (s : String) : String :=
  String.mk (((s.data.dropWhile Char.isWhitespace).reverse.dropWhile
    Char.isWhitespace).reverse)

/-- One conversation event; merges the fields of `session.Event` and of the
persisted `EventDocument` of firestore.go (content kept as its serialized
form). -/
structure Event where
  id : String
  invocationID : String
  author : String
  branch : String
  content : String
  timestamp : Nat
deriving DecidableEq

/-- A session document as stored in Firestore (`SessionDocument` in
firestore.go); the `events` field stands for the events subcollection of the
document, kept in append order. -/
structure SessionDocument where
  id : String
  appName : String
  userId : String
  state : List (String × Value)
  createdAt : Nat
  updatedAt : Nat
  events : List Event
deriving DecidableEq

/-- The in-process materialized session object (`FirestoreSession`). -/
structure FirestoreSession where
  id : String
  appName : String
  userID : String
  state : List (String × Value)
  events : List Event
  lastUpdateTime : Nat
deriving DecidableEq

/-- Document key used by `FirestoreService.sessionDocRef`:
`fmt.Sprintf("%s_%s_%s", appName, userID, sessionID)`. -/
def docKey (app user sid : String) : String :=
  app ++ "_" ++ user ++ "_" ++ sid

/-- The sessions collection, keyed by document key. -/
abbrev SessionStore : Type := List (String × SessionDocument)

/-- The Go loop `for key, value := range updates { state[key] = value }` of
`FirestoreService.UpdateState` (firestore.go): merge `updates` into `state`,
last write winning per key. -/
def mergeState (state updates : List (String × Value)) : List (String × Value) :=
  updates.foldl (fun acc kv => alistSet acc kv.1 kv.2) state

/-- `FirestoreService.UpdateState` (firestore.go): read the session document,
merge `updates` into its state and write it back together with a fresh
`updatedAt`; fails when the document does not exist. -/
def updateState (store : SessionStore) (app user sid : String)
    (updates : List (String × Value)) (now : Nat) : Option SessionStore :=
  match alistGet store (docKey app user sid) with
  | none => none
  | some doc =>
    some (alistSet store (docKey app user sid)
      { doc with state := mergeState doc.state updates, updatedAt := now })

/-- `FirestoreService.AppendEvent` (firestore.go): update the stored document
(`updatedAt := now`, `state` := the in-memory state), add the event to the
events subcollection, and append it to the in-memory `FirestoreSession` so it
is visible to reads in the same process.  Fails when the document does not
exist. -/
def appendEvent (store : SessionStore) (sess : FirestoreSession) (event : Event)
    (now : Nat) : Option (SessionStore × FirestoreSession) :=
  match alistGet store (docKey sess.appName sess.userID sess.id) with
  | none => none
  | some doc =>
    some (alistSet store (docKey sess.appName sess.userID sess.id)
        { doc with updatedAt := now, state := sess.state,
                   events := doc.events ++ [event] },
      { sess with events := sess.events ++ [event] })

/-! ### Session resolution (chat.go `resolveSessionID`)

Resolution only ever works on the sessions of one `(appName, userID)` pair, so
the environment carries that slice of the store, a clock used by
`FirestoreService.Create` to mint ids, and fault-injection flags for the two
backend calls of the function. -/

/-- Environment of one `resolveSessionID` call. -/
structure ResolveEnv where
  sessions : List SessionDocument
  listFails : Bool
  createFails : Bool
  now : Nat
deriving DecidableEq

/-- Session id minted by `FirestoreService.Create` when the request carries no
id: `fmt.Sprintf("session_%d", time.Now().UnixNano())`. -/
def freshSessionID (now : Nat) : String :=
  "session_" ++ toString now

/-- Firestore `docRef.Set` inside the `(appName, userID)` slice: replace the
document with the same id, else add it. -/
def putSession : List SessionDocument → SessionDocument → List SessionDocument
  | [], d => [d]
  | x :: rest, d => if x.id = d.id then d :: rest else x :: putSession rest d

/-- The document `FirestoreService.Create` stores for a request without an
explicit session id: minted id `session_<now>`, the given initial state, no
events, `createdAt = updatedAt = now`. -/
def createdDoc (env : ResolveEnv) (app user : String)
    (st : List (String × Value)) : SessionDocument :=
  { id := freshSessionID env.now, appName := app, userId := user,
    state := st, createdAt := env.now, updatedAt := env.now, events := [] }

/-- `FirestoreService.Create` for a request without explicit session id. -/
def createSession (env : ResolveEnv) (app user : String)
    (st : List (String × Value)) : Option (SessionDocument × List SessionDocument) :=
  if env.createFails then none
  else some (createdDoc env app user st,
    putSession env.sessions (createdDoc env app user st))

/-- `FirestoreService.List`: all sessions of the `(appName, userID)` pair
ordered by `updatedAt` descending. -/
def listSessions (env : ResolveEnv) : Option (List SessionDocument) :=
  if env.listFails then none
  else some (env.sessions.mergeSort (fun a b => Nat.ble b.updatedAt a.updatedAt))

/-- The per-session check of resolveSessionID's scan: state key
`frontend_session_id` exists, is a string, and equals the given id. -/
def sessionMatchesToken (doc : SessionDocument) (sessionID : String) : Bool :=
  match alistGet doc.state "frontend_session_id" with
  | some (Value.str s) => s == sessionID
  | _ => false

/-- The latest-session scan of resolveSessionID (chat.go lines 213-222):
start from the first listed session and replace it whenever a candidate has a
strictly later `LastUpdateTime`. -/
def scanLatest : SessionDocument → List SessionDocument → SessionDocument
  | latest, [] => latest
  | latest, c :: rest =>
    if latest.updatedAt < c.updatedAt then scanLatest c rest
    else scanLatest latest rest

/-- `resolveSessionID` (chat.go): list the user's sessions; on listing failure
fall back to creating a session seeded with the frontend id; for a concrete
frontend id scan for a match and create a seeded session when none matches;
for "default"/empty reuse the most recently updated session or create an empty
one.  Returns the resolved id together with the `(app, user)` session slice
after the call; `none` is the error outcome. -/
def resolveSessionID (env : ResolveEnv) (app user sessionID : String) :
    Option (String × List SessionDocument) :=
  match listSessions env with
  | none =>
    match createSession env app user [("frontend_session_id", Value.str sessionID)] with
    | some (doc, sessions2) =>
      if trimSpace doc.id ≠ "" then some (doc.id, sessions2) else none
    | none => none
  | some listed =>
    if sessionID ≠ "default" ∧ sessionID ≠ "" then
      match listed.find? (fun d => sessionMatchesToken d sessionID) with
      | some d => some (d.id, env.sessions)
      | none =>
        match createSession env app user [("frontend_session_id", Value.str sessionID)] with
        | none => none
        | some (doc, sessions2) =>
          if trimSpace doc.id = "" then none else some (doc.id, sessions2)
    else
      match listed with
      | first :: rest => some ((scanLatest first rest).id, env.sessions)
      | [] =>
        match createSession env app user [] with
        | none => none
        | some (doc, sessions2) =>
          if trimSpace doc.id = "" then none else some (doc.id, sessions2)

/-! ### Chat enrichment (chat.go `chatWithAgent`, lines 84-107) -/

/-- Go `strings.Join(lines, "\n")`. -/
def joinLines : List String → String
  | [] => ""
  | [x] => x
  | x :: rest => x ++ "\n" ++ joinLines rest

/-- The message-enrichment step of `chatWithAgent`: when the session state
holds `analysis_result`, prepend a context preamble built from the optional
`title` and `overall_score` keys and the raw serialized analysis; otherwise
leave the message unchanged. -/
def enrichMessage (state : List (String × Value)) (message : String) : String :=
  match alistGet state "analysis_result" with
  | none => message
  | some analysisJSON =>
    let contextLines :=
      (match alistGet state "title" with
        | some t => ["写真タイトル: " ++ t.render]
        | none => []) ++
      (match alistGet state "overall_score" with
        | some sc => ["総合スコア: " ++ sc.render ++ "/10"]
        | none => []) ++
      ["分析結果JSON: " ++ analysisJSON.render]
    "[この写真セッションの分析コンテキスト]\n" ++ joinLines contextLines ++
      "\n\n[ユーザーの質問]\n" ++ message

/-! ### Job store (image.go) -/

/-- `JobStatus`. -/
inductive JobStatus where
  | pending
  | processing
  | completed
  | failed
deriving DecidableEq

/-- `string(job.Status)`. -/
def statusString : JobStatus → String
  | JobStatus.pending => "pending"
  | JobStatus.processing => "processing"
  | JobStatus.completed => "completed"
  | JobStatus.failed => "failed"

/-- One category critique of `services.AnalysisResult`. -/
structure CategoryScore where
  score : Int
  comment : String
  improvement : String
deriving DecidableEq

/-- `services.AnalysisResult`: the structured output of the vision oracle. -/
structure AnalysisResult where
  photoSummary : String
  summary : String
  overallComment : String
  overallScore : Int
  composition : CategoryScore
  exposure : CategoryScore
  color : CategoryScore
  lighting : CategoryScore
  focus : CategoryScore
  development : CategoryScore
  distance : CategoryScore
  intentClarity : CategoryScore
deriving DecidableEq

/-- `AnalyzeResult`: payload of a completed job (analyze.go / image.go). -/
structure AnalyzeResult where
  enhancedImageURL : String
  analysis : AnalysisResult
  initialAdvice : String
deriving DecidableEq

/-- `Job` of image.go. -/
structure Job where
  id : String
  status : JobStatus
  result : Option AnalyzeResult
  error : String
  createdAt : Nat
deriving DecidableEq

/-- The in-memory job registry `JobStore.jobs`. -/
abbrev JobStoreMap : Type := List (String × Job)

/-- `JobStore.Create`: insert a fresh pending job. -/
def jobCreate (s : JobStoreMap) (id : String) (now : Nat) : JobStoreMap :=
  alistSet s id
    { id := id, status := JobStatus.pending, result := none, error := "",
      createdAt := now }

/-- `JobStore.Get`. -/
def jobGet (s : JobStoreMap) (id : String) : Option Job :=
  alistGet s id

/-- The shared mutation pattern of image.go:
`if job, ok := s.jobs[id]; ok { mutate job }` — apply `f` to the job with the
given id when present, else change nothing. -/
def jobModify (s : JobStoreMap) (id : String) (f : Job → Job) : JobStoreMap :=
  s.map (fun p => if p.1 = id then (p.1, f p.2) else p)

/-- `JobStore.SetProcessing`. -/
def setProcessing (s : JobStoreMap) (id : String) : JobStoreMap :=
  jobModify s id (fun j => { j with status := JobStatus.processing })

/-- `JobStore.SetCompleted`. -/
def setCompleted (s : JobStoreMap) (id : String) (result : AnalyzeResult) :
    JobStoreMap :=
  jobModify s id
    (fun j => { j with status := JobStatus.completed, result := some result })

/-- `JobStore.SetFailed`. -/
def setFailed (s : JobStoreMap) (id : String) (errMsg : String) : JobStoreMap :=
  jobModify s id (fun j => { j with status := JobStatus.failed, error := errMsg })

/-- `JobStore.Cleanup`: drop jobs created before `now - maxAge`. -/
def jobCleanup (s : JobStoreMap) (maxAge now : Nat) : JobStoreMap :=
  s.filter (fun p => ! decide (p.2.createdAt < now - maxAge))

/-! ### Analysis pipeline (analyze.go `processAnalysis`) -/

/-- Outcomes of the external calls made by one `processAnalysis` run, in call
order.  `storage` is the storage-client acquisition, `resize` the image
normalization, `upload` yields the original-image locator, `analyze` the
vision-oracle result, `enhance` the generated-image locator, `resolve` the
session resolution; `updateStateOk`/`seedOk` record whether the
state write and the synthetic event seeding succeed. -/
structure PipelineEnv where
  storage : Except String Unit
  resize : Except String Unit
  upload : Except String String
  analyze : Except String AnalysisResult
  enhance : Except String String
  resolve : Except String String
  updateStateOk : Bool
  seedOk : Bool

/-- `AnalyzeHandler.processAnalysis`: mark the job processing, run the
pipeline steps, mark the job failed at the first failing step (with the
message analyze.go uses there), and otherwise mark it completed with the
result payload.  Failures of session resolution, of the session-state write
and of event seeding are only logged; the returned string list holds those
log warnings. -/
def processAnalysis (env : PipelineEnv) (jobID : String) (store : JobStoreMap) :
    JobStoreMap × List String :=
  let s1 := setProcessing store jobID
  match env.storage with
  | Except.error _ => (setFailed s1 jobID "Storage client error", [])
  | Except.ok _ =>
    match env.resize with
    | Except.error _ => (setFailed s1 jobID "Invalid image", [])
    | Except.ok _ =>
      match env.upload with
      | Except.error e => (setFailed s1 jobID e, [])
      | Except.ok _imageURL =>
        match env.analyze with
        | Except.error e => (setFailed s1 jobID e, [])
        | Except.ok analysis =>
          match env.enhance with
          | Except.error e => (setFailed s1 jobID e, [])
          | Except.ok enhancedURL =>
            let resolveWarn :=
              match env.resolve with
              | Except.error _ => ["failed to resolve session ID"]
              | Except.ok _ => []
            let resolvedSessionID :=
              match env.resolve with
              | Except.error _ => ""
              | Except.ok sid => sid
            let stateWarns :=
              if resolvedSessionID ≠ "" then
                (if env.updateStateOk then []
                 else ["failed to update session state"]) ++
                (if env.seedOk then [] else ["failed to seed analysis events"])
              else []
            (setCompleted s1 jobID
              { enhancedImageURL := enhancedURL, analysis := analysis,
                initialAdvice := analysis.summary },
              resolveWarn ++ stateWarns)

/-- Response shape of `AnalyzeStatusHandler.ServeHTTP` for a found job:
`result` is present exactly when the job is completed with a non-nil result,
`error` exactly when it failed. -/
structure StatusResponse where
  jobId : String
  status : String
  result : Option AnalyzeResult
  error : Option String
deriving DecidableEq

/-- `AnalyzeStatusHandler.ServeHTTP` status read: look the job up and build
the response; the registry is returned unchanged alongside, making the
read/registry footprint of the handler explicit. -/
def analyzeStatus (store : JobStoreMap) (jobID : String) :
    Option StatusResponse × JobStoreMap :=
  match jobGet store jobID with
  | none => (none, store)
  | some job =>
    (some { jobId := job.id, status := statusString job.status,
            result := if job.status = JobStatus.completed then job.result else none,
            error := if job.status = JobStatus.failed then some job.error else none },
      store)

/-! ### Sample values used by the concrete witnesses -/

/-- Sample category critique. -/
def sampleCategory : CategoryScore :=
  { score := 7, comment := "c", improvement := "i" }

/-- Sample vision-oracle result. -/
def sampleAnalysis : AnalysisResult :=
  { photoSummary := "夕景の写真", summary := "光が良い", overallComment := "o",
    overallScore := 7, composition := sampleCategory, exposure := sampleCategory,
    color := sampleCategory, lighting := sampleCategory, focus := sampleCategory,
    development := sampleCategory, distance := sampleCategory,
    intentClarity := sampleCategory }

/-- Sample completed-job payload. -/
def sampleResult : AnalyzeResult :=
  { enhancedImageURL := "https://host/photo/image?object=enhanced%2Fx",
    analysis := sampleAnalysis, initialAdvice := sampleAnalysis.summary }

/-- Sample pipeline environment where every external call succeeds. -/
def samplePipelineEnv : PipelineEnv :=
  { storage := Except.ok (), resize := Except.ok (),
    upload := Except.ok "https://host/photo/image?object=uploads%2Fx",
    analyze := Except.ok sampleAnalysis,
    enhance := Except.ok "https://host/photo/image?object=enhanced%2Fx",
    resolve := Except.error "listing failed", updateStateOk := false,
    seedOk := false }

/-- Sample stored session document with empty state. -/
def sampleDoc : SessionDocument :=
  { id := "s1", appName := "photo_levelup", userId := "u1", state := [],
    createdAt := 0, updatedAt := 0, events := [] }

/-- Sample store holding `sampleDoc` after the state write `{a: 1}`. -/
def sampleStoreA : SessionStore :=
  [("photo_levelup_u1_s1",
    { sampleDoc with state := [("a", Value.int 1)], updatedAt := 1 })]

/-- Sample store holding `sampleDoc` after `{a: 1}` then `{b: 2}`. -/
def sampleStoreAB : SessionStore :=
  [("photo_levelup_u1_s1",
    { sampleDoc with
        state := [("a", Value.int 1), ("b", Value.int 2)],
        updatedAt := 2 })]

/-- Sample in-process materialized session matching `sampleDoc`. -/
def sampleSession : FirestoreSession :=
  { id := "s1", appName := "photo_levelup", userID := "u1", state := [],
    events := [], lastUpdateTime := 0 }

/-- Sample conversation event. -/
def sampleEvent : Event :=
  { id := "e1", invocationID := "inv1", author := "user", branch := "",
    content := "この写真を分析して改善点を教えてください", timestamp := 3 }

/-! ### Association-list lemmas -/

theorem alistGet_alistSet_self {α : Type} (m : List (String × α)) (k : String)
    (v : α) : alistGet (alistSet m k v) k = some v := by
  induction m with
  | nil => simp [alistSet, alistGet]
  | cons p rest ih =>
    obtain ⟨k', v'⟩ := p
    by_cases h : k' = k <;> simp [alistSet, alistGet, h, ih]

theorem alistGet_alistSet_ne {α : Type} (m : List (String × α)) (k k' : String)
    (v : α) (h : k' ≠ k) : alistGet (alistSet m k v) k' = alistGet m k' := by
  have h2 : ¬(k = k') := fun hh => h hh.symm
  induction m with
  | nil => simp [alistSet, alistGet, h2]
  | cons p rest ih =>
    obtain ⟨k0, v0⟩ := p
    by_cases h0 : k0 = k
    · subst h0
      simp [alistSet, alistGet, h2]
    · simp [alistSet, alistGet, h0, ih]

theorem alistGet_eq_none_of_not_mem_keys {α : Type} (m : List (String × α))
    (k : String) (h : k ∉ m.map Prod.fst) : alistGet m k = none := by
  induction m with
  | nil => rfl
  | cons p rest ih =>
    obtain ⟨k0, v0⟩ := p
    simp only [List.map_cons, List.mem_cons] at h
    push_neg at h
    have h1 : ¬(k0 = k) := fun hh => h.1 hh.symm
    simp [alistGet, h1, ih h.2]

/-! ### Job-store lemmas -/

theorem jobModify_cons (k : String) (j : Job) (rest : JobStoreMap) (id : String)
    (f : Job → Job) :
    jobModify ((k, j) :: rest) id f =
      (if k = id then (k, f j) else (k, j)) :: jobModify rest id f := by
  by_cases h : k = id <;> simp [jobModify, h]

theorem jobGet_jobModify_self (s : JobStoreMap) (id : String) (f : Job → Job) :
    jobGet (jobModify s id f) id = (jobGet s id).map f := by
  induction s with
  | nil => rfl
  | cons p rest ih =>
    obtain ⟨k, j⟩ := p
    rw [jobModify_cons]
    by_cases h : k = id
    · subst h
      rw [if_pos rfl]
      simp [jobGet, alistGet]
    · rw [if_neg h]
      simpa [jobGet, alistGet, h] using ih

theorem jobModify_of_get_none (s : JobStoreMap) (id : String) (f : Job → Job)
    (h : jobGet s id = none) : jobModify s id f = s := by
  induction s with
  | nil => rfl
  | cons p rest ih =>
    obtain ⟨k, j⟩ := p
    by_cases hk : k = id
    · subst hk
      simp [jobGet, alistGet] at h
    · have h2 : jobGet rest id = none := by
        simpa [jobGet, alistGet, hk] using h
      rw [jobModify_cons, if_neg hk, ih h2]

/-- C10: on a job id absent from the registry, each of SetProcessing,
SetCompleted and SetFailed returns without creating an entry and leaves the
registry exactly unchanged. -/
theorem jobstore_mutations_noop_on_absent (s : JobStoreMap) (id : String)
    (r : AnalyzeResult) (e : String) (h : jobGet s id = none) :
    setProcessing s id = s ∧ setCompleted s id r = s ∧ setFailed s id e = s := by
  exact ⟨jobModify_of_get_none s id _ h, jobModify_of_get_none s id _ h,
    jobModify_of_get_none s id _ h⟩

/-- Witness for C10 at a concrete registry and an absent id. -/
theorem jobstore_mutations_noop_on_absent_witness :
    jobGet (jobCreate [] "a" 0) "b" = none ∧
    (setProcessing (jobCreate [] "a" 0) "b" = jobCreate [] "a" 0 ∧
     setCompleted (jobCreate [] "a" 0) "b" sampleResult = jobCreate [] "a" 0 ∧
     setFailed (jobCreate [] "a" 0) "b" "boom" = jobCreate [] "a" 0) :=
  ⟨by decide,
   jobstore_mutations_noop_on_absent (jobCreate [] "a" 0) "b" sampleResult
     "boom" (by decide)⟩

/-- C9: a status read returns the registry unchanged, and for a completed job
a second poll returns a response identical to the first, whose status is
"completed" and whose result is the job's stored result. -/
theorem status_poll_pure_and_idempotent (store : JobStoreMap) (jobID : String) :
    (analyzeStatus store jobID).2 = store ∧
    (∀ j, jobGet store jobID = some j → j.status = JobStatus.completed →
      (analyzeStatus (analyzeStatus store jobID).2 jobID).1 =
        (analyzeStatus store jobID).1 ∧
      (analyzeStatus store jobID).1.map StatusResponse.status =
        some "completed" ∧
      (analyzeStatus store jobID).1.map StatusResponse.result = some j.result) := by
  constructor
  · cases h : jobGet store jobID <;> simp [analyzeStatus, h]
  · intro j hj hc
    simp [analyzeStatus, hj, hc, statusString]

/-- Witness for C9 at a one-job registry whose job is completed. -/
theorem status_poll_pure_and_idempotent_witness :
    (analyzeStatus (setCompleted (jobCreate [] "a" 0) "a" sampleResult) "a").2 =
      setCompleted (jobCreate [] "a" 0) "a" sampleResult ∧
    (∀ j, jobGet (setCompleted (jobCreate [] "a" 0) "a" sampleResult) "a" =
        some j →
      j.status = JobStatus.completed →
      (analyzeStatus
          (analyzeStatus (setCompleted (jobCreate [] "a" 0) "a" sampleResult)
            "a").2 "a").1 =
        (analyzeStatus (setCompleted (jobCreate [] "a" 0) "a" sampleResult)
          "a").1 ∧
      (analyzeStatus (setCompleted (jobCreate [] "a" 0) "a" sampleResult)
          "a").1.map StatusResponse.status = some "completed" ∧
      (analyzeStatus (setCompleted (jobCreate [] "a" 0) "a" sampleResult)
          "a").1.map StatusResponse.result = some j.result) :=
  status_poll_pure_and_idempotent
    (setCompleted (jobCreate [] "a" 0) "a" sampleResult) "a"

/-- C7: once analysis and generated image exist, the job completes with the
generated-image locator, the full analysis and the summary as initial advice,
for every outcome of session resolution, state write and event seeding. -/
theorem pipeline_completes_despite_state_write_failures (env : PipelineEnv)
    (jobID : String) (store : JobStoreMap) (j : Job) (u g : String)
    (a : AnalysisResult) (hj : jobGet store jobID = some j)
    (hst : env.storage = Except.ok ()) (hrz : env.resize = Except.ok ())
    (hup : env.upload = Except.ok u) (han : env.analyze = Except.ok a)
    (hen : env.enhance = Except.ok g) :
    jobGet (processAnalysis env jobID store).1 jobID =
      some { j with status := JobStatus.completed,
                    result := some { enhancedImageURL := g, analysis := a,
                                     initialAdvice := a.summary } } := by
  simp [processAnalysis, hst, hrz, hup, han, hen, setCompleted, setProcessing,
    jobGet_jobModify_self, hj]

/-- Witness for C7: concrete run with failing resolution, state write and
seeding still completes the job with the full payload. -/
theorem pipeline_completes_despite_state_write_failures_witness :
    jobGet (processAnalysis samplePipelineEnv "a" (jobCreate [] "a" 0)).1 "a" =
      some { id := "a", status := JobStatus.completed,
             result := some sampleResult, error := "", createdAt := 0 } :=
  pipeline_completes_despite_state_write_failures samplePipelineEnv "a"
    (jobCreate [] "a" 0)
    { id := "a", status := JobStatus.pending, result := none, error := "",
      createdAt := 0 }
    "https://host/photo/image?object=uploads%2Fx"
    "https://host/photo/image?object=enhanced%2Fx" sampleAnalysis (by decide)
    rfl rfl rfl rfl rfl

/-- C2: from a pending job, the pipeline's SetProcessing moves the status to
processing, and the run ends with exactly one of completed or failed, never
back at pending. -/
theorem job_status_monotone (env : PipelineEnv) (jobID : String)
    (store : JobStoreMap) (j : Job) (hj : jobGet store jobID = some j)
    (hp : j.status = JobStatus.pending) :
    (jobGet store jobID).map Job.status = some JobStatus.pending ∧
    jobGet (setProcessing store jobID) jobID =
      some { j with status := JobStatus.processing } ∧
    ∃ j2, jobGet (processAnalysis env jobID store).1 jobID = some j2 ∧
      Xor' (j2.status = JobStatus.completed) (j2.status = JobStatus.failed) ∧
      j2.status ≠ JobStatus.pending := by
  refine ⟨by simp [hj, hp], by simp [setProcessing, jobGet_jobModify_self, hj],
    ?_⟩
  obtain ⟨st, rz, up, an, en, rs, uok, sok⟩ := env
  rcases st with e | u <;> rcases rz with e2 | u2 <;> rcases up with e3 | u3 <;>
    rcases an with e4 | a <;> rcases en with e5 | g <;>
    simp [processAnalysis, setCompleted, setProcessing, setFailed,
      jobGet_jobModify_self, hj, Xor']

/-- Witness for C2 at a concrete pending job. -/
theorem job_status_monotone_witness :
    (jobGet (jobCreate [] "a" 0) "a").map Job.status =
      some JobStatus.pending ∧
    jobGet (setProcessing (jobCreate [] "a" 0) "a") "a" =
      some { id := "a", status := JobStatus.processing, result := none,
             error := "", createdAt := 0 } ∧
    ∃ j2, jobGet (processAnalysis samplePipelineEnv "a" (jobCreate [] "a" 0)).1
        "a" = some j2 ∧
      Xor' (j2.status = JobStatus.completed) (j2.status = JobStatus.failed) ∧
      j2.status ≠ JobStatus.pending :=
  job_status_monotone samplePipelineEnv "a" (jobCreate [] "a" 0)
    { id := "a", status := JobStatus.pending, result := none, error := "",
      createdAt := 0 } (by decide) rfl

/-! ### State-merge lemmas (C6) -/

theorem mergeState_get_of_none (updates state : List (String × Value))
    (k : String) (h : alistGet updates k = none) :
    alistGet (mergeState state updates) k = alistGet state k := by
  induction updates generalizing state with
  | nil => rfl
  | cons p rest ih =>
    obtain ⟨k0, v0⟩ := p
    have hk0 : ¬(k0 = k) := by
      intro hh
      simp [alistGet, hh] at h
    have hrest : alistGet rest k = none := by
      simpa [alistGet, hk0] using h
    have e1 : mergeState state ((k0, v0) :: rest) =
        mergeState (alistSet state k0 v0) rest := rfl
    rw [e1, ih _ hrest, alistGet_alistSet_ne _ _ _ _ (fun hh => hk0 hh.symm)]

theorem mergeState_get_of_some (updates state : List (String × Value))
    (k : String) (v : Value) (hnodup : (updates.map Prod.fst).Nodup)
    (h : alistGet updates k = some v) :
    alistGet (mergeState state updates) k = some v := by
  induction updates generalizing state with
  | nil => simp [alistGet] at h
  | cons p rest ih =>
    obtain ⟨k0, v0⟩ := p
    simp only [List.map_cons, List.nodup_cons] at hnodup
    have e1 : mergeState state ((k0, v0) :: rest) =
        mergeState (alistSet state k0 v0) rest := rfl
    rw [e1]
    by_cases hk : k0 = k
    · subst hk
      have hv : v = v0 := by
        simpa [alistGet] using h.symm
      subst hv
      have hrest : alistGet rest k0 = none :=
        alistGet_eq_none_of_not_mem_keys _ _ hnodup.1
      rw [mergeState_get_of_none _ _ _ hrest, alistGet_alistSet_self]
    · have hrest : alistGet rest k = some v := by
        simpa [alistGet, hk] using h
      exact ih _ hnodup.2 hrest

/-- C6: updateState merges the updates into the existing document state:
every key of `updates` reads back with its updated value, and every key
absent from `updates` keeps its previous value. -/
theorem updateState_nondestructive_merge (store : SessionStore)
    (app user sid : String) (updates : List (String × Value)) (now : Nat)
    (store2 : SessionStore)
    (h : updateState store app user sid updates now = some store2)
    (hnodup : (updates.map Prod.fst).Nodup) :
    ∃ doc doc2, alistGet store (docKey app user sid) = some doc ∧
      alistGet store2 (docKey app user sid) = some doc2 ∧
      (∀ k v, alistGet updates k = some v → alistGet doc2.state k = some v) ∧
      (∀ k, alistGet updates k = none →
        alistGet doc2.state k = alistGet doc.state k) := by
  unfold updateState at h
  cases hdoc : alistGet store (docKey app user sid) with
  | none => rw [hdoc] at h; cases h
  | some doc =>
    rw [hdoc] at h
    cases h
    refine ⟨doc, _, rfl, alistGet_alistSet_self _ _ _, ?_, ?_⟩
    · intro k v hk
      exact mergeState_get_of_some _ _ _ _ hnodup hk
    · intro k hk
      exact mergeState_get_of_none _ _ _ hk

/-- Witness for C6: after writing `{a: 1}` and then `{b: 2}`, both keys stay
readable. -/
theorem updateState_nondestructive_merge_witness :
    updateState sampleStoreA "photo_levelup" "u1" "s1" [("b", Value.int 2)] 2 =
      some sampleStoreAB ∧
    (([("b", Value.int 2)].map Prod.fst).Nodup) ∧
    (∃ doc doc2,
      alistGet sampleStoreA (docKey "photo_levelup" "u1" "s1") = some doc ∧
      alistGet sampleStoreAB (docKey "photo_levelup" "u1" "s1") = some doc2 ∧
      (∀ k v, alistGet [("b", Value.int 2)] k = some v →
        alistGet doc2.state k = some v) ∧
      (∀ k, alistGet [("b", Value.int 2)] k = none →
        alistGet doc2.state k = alistGet doc.state k)) :=
  ⟨by decide, by decide,
   updateState_nondestructive_merge sampleStoreA "photo_levelup" "u1" "s1"
     [("b", Value.int 2)] 2 sampleStoreAB (by decide) (by decide)⟩

/-- C3: a successful appendEvent leaves the in-memory session's event list
equal to the old list with the event appended (so a read right after the
append sees it as the last event) and refreshes the stored document's
`updatedAt` to the append time. -/
theorem appendEvent_refreshes_and_visible (store : SessionStore)
    (sess : FirestoreSession) (event : Event) (now : Nat)
    (store2 : SessionStore) (sess2 : FirestoreSession)
    (h : appendEvent store sess event now = some (store2, sess2)) :
    sess2.events = sess.events ++ [event] ∧
    sess2.events.getLast? = some event ∧
    ∃ doc2, alistGet store2 (docKey sess.appName sess.userID sess.id) =
        some doc2 ∧
      doc2.updatedAt = now ∧ doc2.events.getLast? = some event := by
  unfold appendEvent at h
  cases hdoc : alistGet store (docKey sess.appName sess.userID sess.id) with
  | none => rw [hdoc] at h; cases h
  | some doc =>
    rw [hdoc] at h
    simp only [Option.some.injEq, Prod.mk.injEq] at h
    obtain ⟨h1, h2⟩ := h
    subst h1
    subst h2
    refine ⟨rfl, List.getLast?_concat _, _, alistGet_alistSet_self _ _ _, rfl,
      List.getLast?_concat _⟩

/-- Witness for C3 at a concrete store, session and event. -/
theorem appendEvent_refreshes_and_visible_witness :
    ((sampleSession.events ++ [sampleEvent] : List Event) =
      sampleSession.events ++ [sampleEvent]) ∧
    ∃ store2 sess2,
      appendEvent sampleStoreA sampleSession sampleEvent 3 =
        some (store2, sess2) ∧
      (sess2.events = sampleSession.events ++ [sampleEvent] ∧
       sess2.events.getLast? = some sampleEvent ∧
       ∃ doc2, alistGet store2
           (docKey sampleSession.appName sampleSession.userID
             sampleSession.id) = some doc2 ∧
         doc2.updatedAt = 3 ∧ doc2.events.getLast? = some sampleEvent) := by
  refine ⟨rfl, _, _, rfl, ?_⟩
  exact appendEvent_refreshes_and_visible sampleStoreA sampleSession
    sampleEvent 3 _ _ (by decide)

/-- C5: when the session state holds a serialized analysis result together
with the title and overall score written by the pipeline, the outgoing chat
message is the context preamble (title line, score line, raw serialized
analysis) followed by the user's literal message; without an analysis result
the message is sent unmodified. -/
theorem chat_enrichment_preamble (state : List (String × Value))
    (message : String) :
    (∀ aj t sc, alistGet state "analysis_result" = some aj →
      alistGet state "title" = some t →
      alistGet state "overall_score" = some sc →
      enrichMessage state message =
        "[この写真セッションの分析コンテキスト]\n" ++
          ("写真タイトル: " ++ t.render ++ "\n" ++
           ("総合スコア: " ++ sc.render ++ "/10") ++ "\n" ++
           ("分析結果JSON: " ++ aj.render)) ++
          "\n\n[ユーザーの質問]\n" ++ message) ∧
    (alistGet state "analysis_result" = none →
      enrichMessage state message = message) := by
  constructor
  · intro aj t sc h1 h2 h3
    simp [enrichMessage, h1, h2, h3, joinLines, String.append_assoc]
  · intro h
    simp [enrichMessage, h]

/-- Witness for C5: enriched and unenriched concrete chats. -/
theorem chat_enrichment_preamble_witness :
    enrichMessage
        [("analysis_result", Value.str "{}"), ("title", Value.str "T"),
         ("overall_score", Value.int 7)] "m" =
      "[この写真セッションの分析コンテキスト]\n" ++
        ("写真タイトル: " ++ (Value.str "T").render ++ "\n" ++
         ("総合スコア: " ++ (Value.int 7).render ++ "/10") ++ "\n" ++
         ("分析結果JSON: " ++ (Value.str "{}").render)) ++
        "\n\n[ユーザーの質問]\n" ++ "m" ∧
    enrichMessage [("a", Value.int 1)] "m" = "m" :=
  ⟨(chat_enrichment_preamble
      [("analysis_result", Value.str "{}"), ("title", Value.str "T"),
       ("overall_score", Value.int 7)] "m").1 (Value.str "{}") (Value.str "T")
      (Value.int 7) rfl rfl rfl,
   (chat_enrichment_preamble [("a", Value.int 1)] "m").2 rfl⟩

/-! ### Session-resolution lemmas -/

theorem putSession_of_fresh (l : List SessionDocument) (d : SessionDocument)
    (h : ∀ x ∈ l, x.id ≠ d.id) : putSession l d = l ++ [d] := by
  induction l with
  | nil => rfl
  | cons x rest ih =>
    have hx : ¬(x.id = d.id) := h x (List.mem_cons_self _ _)
    simp [putSession, hx, ih (fun y hy => h y (List.mem_cons_of_mem _ hy))]

theorem putSession_mem (l : List SessionDocument) (d : SessionDocument) :
    d ∈ putSession l d := by
  induction l with
  | nil => simp [putSession]
  | cons x rest ih =>
    by_cases hx : x.id = d.id <;> simp [putSession, hx, ih]

theorem scanLatest_mem (latest : SessionDocument) (l : List SessionDocument) :
    scanLatest latest l ∈ latest :: l := by
  induction l generalizing latest with
  | nil => simp [scanLatest]
  | cons c rest ih =>
    simp only [scanLatest]
    by_cases h : latest.updatedAt < c.updatedAt
    · rw [if_pos h]
      exact List.mem_cons_of_mem _ (ih c)
    · rw [if_neg h]
      rcases List.mem_cons.mp (ih latest) with h2 | h2
      · rw [h2]
        exact List.mem_cons_self _ _
      · exact List.mem_cons_of_mem _ (List.mem_cons_of_mem _ h2)

theorem scanLatest_ge (latest : SessionDocument) (l : List SessionDocument) :
    latest.updatedAt ≤ (scanLatest latest l).updatedAt ∧
    ∀ x ∈ l, x.updatedAt ≤ (scanLatest latest l).updatedAt := by
  induction l generalizing latest with
  | nil => exact ⟨Nat.le_refl _, by simp⟩
  | cons c rest ih =>
    simp only [scanLatest]
    by_cases h : latest.updatedAt < c.updatedAt
    · rw [if_pos h]
      obtain ⟨ha, hb⟩ := ih c
      refine ⟨Nat.le_trans (Nat.le_of_lt h) ha, ?_⟩
      intro x hx
      rcases List.mem_cons.mp hx with rfl | hx2
      · exact ha
      · exact hb x hx2
    · rw [if_neg h]
      obtain ⟨ha, hb⟩ := ih latest
      refine ⟨ha, ?_⟩
      intro x hx
      rcases List.mem_cons.mp hx with rfl | hx2
      · exact Nat.le_trans (Nat.le_of_not_lt h) ha
      · exact hb x hx2

theorem find?_eq_of_unique {α : Type} (p : α → Bool) (l : List α) (d : α)
    (hd : d ∈ l) (hp : p d = true)
    (huniq : ∀ x ∈ l, p x = true → x = d) : l.find? p = some d := by
  induction l with
  | nil => cases hd
  | cons a rest ih =>
    by_cases ha : p a = true
    · have h2 : a = d := huniq a (List.mem_cons_self a rest) ha
      subst h2
      simp [List.find?_cons_of_pos _ ha]
    · rw [List.find?_cons_of_neg _ (by simpa using ha)]
      rcases List.mem_cons.mp hd with rfl | hd2
      · exact absurd hp ha
      · exact ih hd2 (fun x hx hpx => huniq x (List.mem_cons_of_mem _ hx) hpx)

theorem listSessions_perm (env : ResolveEnv) (h : env.listFails = false) :
    ∃ listed, listSessions env = some listed ∧ listed.Perm env.sessions := by
  refine ⟨env.sessions.mergeSort (fun a b => Nat.ble b.updatedAt a.updatedAt),
    ?_, List.mergeSort_perm _ _⟩
  simp [listSessions, h]

/-- C4: when listing the user's sessions fails, resolution does not surface
the error: it creates a fresh session seeded with the frontend token and
returns its id. -/
theorem resolve_list_failure_fallback (env : ResolveEnv)
    (app user token : String) (hlist : env.listFails = true)
    (hcreate : env.createFails = false)
    (htrim : trimSpace (freshSessionID env.now) ≠ "") :
    ∃ newDoc : SessionDocument,
      resolveSessionID env app user token =
        some (newDoc.id, putSession env.sessions newDoc) ∧
      newDoc ∈ putSession env.sessions newDoc ∧
      alistGet newDoc.state "frontend_session_id" =
        some (Value.str token) := by
  refine ⟨createdDoc env app user [("frontend_session_id", Value.str token)],
    ?_, putSession_mem _ _, by simp [createdDoc, alistGet]⟩
  simp [resolveSessionID, listSessions, hlist, createSession, hcreate, htrim,
    createdDoc]

/-- Witness for C4 at a concrete failing-list environment. -/
theorem resolve_list_failure_fallback_witness :
    ∃ newDoc : SessionDocument,
      resolveSessionID
          { sessions := [], listFails := true, createFails := false, now := 5 }
          "photo_levelup" "u1" "tok1" =
        some (newDoc.id, putSession [] newDoc) ∧
      newDoc ∈ putSession [] newDoc ∧
      alistGet newDoc.state "frontend_session_id" =
        some (Value.str "tok1") :=
  resolve_list_failure_fallback
    { sessions := [], listFails := true, createFails := false, now := 5 }
    "photo_levelup" "u1" "tok1" rfl rfl (by decide)

/-- C1: for a frontend token that is neither "default" nor empty and not yet
carried by any session, the first resolution call creates exactly one new
session carrying the token under `frontend_session_id` and returns its id;
a second resolution call over the resulting sessions returns the same id and
leaves the sessions unchanged. -/
theorem resolve_token_first_creates_then_reuses (env : ResolveEnv)
    (app user token : String) (h1 : token ≠ "default") (h2 : token ≠ "")
    (hlist : env.listFails = false) (hcreate : env.createFails = false)
    (hnomatch : ∀ d ∈ env.sessions, sessionMatchesToken d token = false)
    (hfresh : ∀ d ∈ env.sessions, d.id ≠ freshSessionID env.now)
    (htrim : trimSpace (freshSessionID env.now) ≠ "") :
    ∃ newDoc : SessionDocument,
      resolveSessionID env app user token =
        some (newDoc.id, env.sessions ++ [newDoc]) ∧
      alistGet newDoc.state "frontend_session_id" = some (Value.str token) ∧
      (∀ env2 : ResolveEnv, env2.sessions = env.sessions ++ [newDoc] →
        env2.listFails = false →
        resolveSessionID env2 app user token =
          some (newDoc.id, env.sessions ++ [newDoc])) := by
  refine ⟨createdDoc env app user [("frontend_session_id", Value.str token)],
    ?_, by simp [createdDoc, alistGet], ?_⟩
  · have hperm := List.mergeSort_perm env.sessions
      (fun a b => Nat.ble b.updatedAt a.updatedAt)
    have hfind : (env.sessions.mergeSort
        (fun a b => Nat.ble b.updatedAt a.updatedAt)).find?
        (fun d => sessionMatchesToken d token) = none := by
      rw [List.find?_eq_none]
      intro x hx
      rw [hnomatch x (hperm.mem_iff.mp hx)]
      simp
    have hput : putSession env.sessions
        (createdDoc env app user [("frontend_session_id", Value.str token)]) =
        env.sessions ++
          [createdDoc env app user
            [("frontend_session_id", Value.str token)]] :=
      putSession_of_fresh _ _ (fun x hx => by
        simpa [createdDoc] using hfresh x hx)
    have htrim2 : trimSpace
        (createdDoc env app user
          [("frontend_session_id", Value.str token)]).id ≠ "" := htrim
    simp [resolveSessionID, listSessions, hlist, h1, h2, hfind, createSession,
      hcreate, hput, htrim2]
  · intro env2 hs hl2
    have hperm2 := List.mergeSort_perm env2.sessions
      (fun a b => Nat.ble b.updatedAt a.updatedAt)
    have hmatch : sessionMatchesToken
        (createdDoc env app user [("frontend_session_id", Value.str token)])
        token = true := by
      simp [sessionMatchesToken, createdDoc, alistGet]
    have hmem : createdDoc env app user
        [("frontend_session_id", Value.str token)] ∈
        env2.sessions.mergeSort
          (fun a b => Nat.ble b.updatedAt a.updatedAt) := by
      rw [hperm2.mem_iff, hs]
      exact List.mem_append_right _ (by simp)
    have hfind2 : (env2.sessions.mergeSort
        (fun a b => Nat.ble b.updatedAt a.updatedAt)).find?
        (fun d => sessionMatchesToken d token) =
        some (createdDoc env app user
          [("frontend_session_id", Value.str token)]) := by
      refine find?_eq_of_unique _ _ _ hmem hmatch ?_
      intro x hx hmx
      have hx2 : x ∈ env.sessions ++
          [createdDoc env app user
            [("frontend_session_id", Value.str token)]] := by
        rw [← hs]
        exact hperm2.mem_iff.mp hx
      rcases List.mem_append.mp hx2 with hxa | hxb
      · rw [hnomatch x hxa] at hmx
        cases hmx
      · simpa using hxb
    rw [hs] at hfind2
    simp [resolveSessionID, listSessions, hl2, h1, h2, hfind2, hs]

/-- Witness for C1: concrete first-touch creation and second-call reuse. -/
theorem resolve_token_first_creates_then_reuses_witness :
    ∃ newDoc : SessionDocument,
      resolveSessionID
          { sessions := [sampleDoc], listFails := false, createFails := false,
            now := 9 } "photo_levelup" "u1" "tok1" =
        some (newDoc.id, [sampleDoc] ++ [newDoc]) ∧
      alistGet newDoc.state "frontend_session_id" =
        some (Value.str "tok1") ∧
      (∀ env2 : ResolveEnv, env2.sessions = [sampleDoc] ++ [newDoc] →
        env2.listFails = false →
        resolveSessionID env2 "photo_levelup" "u1" "tok1" =
          some (newDoc.id, [sampleDoc] ++ [newDoc])) :=
  resolve_token_first_creates_then_reuses
    { sessions := [sampleDoc], listFails := false, createFails := false,
      now := 9 } "photo_levelup" "u1" "tok1" (by decide) (by decide) rfl rfl
    (by decide) (by decide) (by decide)

/-- C8: for the sentinel "default" (or empty) token, resolution returns the
id of a listed session whose `lastUpdateTime` is maximal when any session
exists, and otherwise creates and returns a brand-new session with empty
initial state. -/
theorem resolve_default_most_recent (env : ResolveEnv)
    (app user sessionID : String)
    (htok : sessionID = "default" ∨ sessionID = "")
    (hlist : env.listFails = false) (hcreate : env.createFails = false)
    (htrim : trimSpace (freshSessionID env.now) ≠ "") :
    (env.sessions ≠ [] → ∃ d, d ∈ env.sessions ∧
      resolveSessionID env app user sessionID = some (d.id, env.sessions) ∧
      ∀ x ∈ env.sessions, x.updatedAt ≤ d.updatedAt) ∧
    (env.sessions = [] → ∃ newDoc : SessionDocument,
      resolveSessionID env app user sessionID =
        some (newDoc.id, [newDoc]) ∧
      newDoc.state = []) := by
  have hcond : ¬(sessionID ≠ "default" ∧ sessionID ≠ "") := by
    rcases htok with rfl | rfl <;> simp
  constructor
  · intro hne
    cases hsl : env.sessions.mergeSort
        (fun a b => Nat.ble b.updatedAt a.updatedAt) with
    | nil =>
      exfalso
      have hlen := (List.mergeSort_perm env.sessions
        (fun a b => Nat.ble b.updatedAt a.updatedAt)).length_eq
      rw [hsl] at hlen
      exact hne (List.eq_nil_of_length_eq_zero hlen.symm)
    | cons first rest =>
      have hperm := List.mergeSort_perm env.sessions
        (fun a b => Nat.ble b.updatedAt a.updatedAt)
      rw [hsl] at hperm
      refine ⟨scanLatest first rest,
        hperm.mem_iff.mp (scanLatest_mem first rest), ?_, ?_⟩
      · simp [resolveSessionID, listSessions, hlist, hcond, hsl]
      · intro x hx
        have hx2 : x ∈ first :: rest := hperm.mem_iff.mpr hx
        rcases List.mem_cons.mp hx2 with rfl | hx3
        · exact (scanLatest_ge _ rest).1
        · exact (scanLatest_ge first rest).2 x hx3
  · intro hnil
    have hsl : env.sessions.mergeSort
        (fun a b => Nat.ble b.updatedAt a.updatedAt) = [] := by
      rw [hnil, List.mergeSort_nil]
    refine ⟨createdDoc env app user [], ?_, rfl⟩
    simp [resolveSessionID, listSessions, hlist, hcond, hsl, createSession,
      hcreate, htrim, putSession, hnil, createdDoc]

/-- Witness for C8: both the reuse branch (nonempty store) and the creation
branch (empty store) at concrete environments. -/
theorem resolve_default_most_recent_witness :
    ((([sampleDoc] : List SessionDocument) ≠ [] → ∃ d, d ∈ [sampleDoc] ∧
      resolveSessionID
          { sessions := [sampleDoc], listFails := false, createFails := false,
            now := 9 } "photo_levelup" "u1" "default" =
        some (d.id, [sampleDoc]) ∧
      ∀ x ∈ [sampleDoc], x.updatedAt ≤ d.updatedAt) ∧
    (([sampleDoc] : List SessionDocument) = [] → ∃ newDoc : SessionDocument,
      resolveSessionID
          { sessions := [sampleDoc], listFails := false, createFails := false,
            now := 9 } "photo_levelup" "u1" "default" =
        some (newDoc.id, [newDoc]) ∧
      newDoc.state = [])) ∧
    (([] : List SessionDocument) ≠ [] → ∃ d, d ∈ ([] : List SessionDocument) ∧
      resolveSessionID
          { sessions := [], listFails := false, createFails := false,
            now := 9 } "photo_levelup" "u1" "default" =
        some (d.id, []) ∧
      ∀ x ∈ ([] : List SessionDocument), x.updatedAt ≤ d.updatedAt) ∧
    (([] : List SessionDocument) = [] → ∃ newDoc : SessionDocument,
      resolveSessionID
          { sessions := [], listFails := false, createFails := false,
            now := 9 } "photo_levelup" "u1" "default" =
        some (newDoc.id, [newDoc]) ∧
      newDoc.state = []) :=
  ⟨resolve_default_most_recent
      { sessions := [sampleDoc], listFails := false, createFails := false,
        now := 9 } "photo_levelup" "u1" "default" (Or.inl rfl) rfl rfl
      (by decide),
   resolve_default_most_recent
      { sessions := [], listFails := false, createFails := false, now := 9 }
      "photo_levelup" "u1" "default" (Or.inl rfl) rfl rfl (by decide)⟩

end PhotoLevelup
